import Mathlib

/-!
Verification of the scan schedulers of `pogom/schedulers.py`
(PokemonGo-Map): a shallow embedding of the data model and of the
operations `_generate_locations`, `schedule`, `empty_queues`,
`next_item` and `task_done` of the classes `BaseScheduler`,
`HexSearch`, `SpawnScan` and `SpeedScan`, with theorems settling the
behavioural claims about them.

Modelling conventions:
* Python floats (latitudes, longitudes, distances, scores, timestamps
  in seconds) are modelled by `ℚ`; seconds-within-the-hour values by
  `ℤ`.
* `get_new_coords` (from `pogom/transform.py`, outside the scheduler
  module) is an opaque parameter `gnc : Loc → ℚ → ℚ → Loc` taking a
  location, a distance and a bearing.  Likewise `equi_rect_distance`
  and `cellid` (from `pogom/utils.py`) are opaque parameters, and the
  elevation lookup plus random altitude jitter of the generators is an
  opaque parameter `alt : Loc → ℚ`.  The claims under verification do
  not depend on the values these functions return, only on how the
  scheduler code uses them.
* `xdist` and `ydist` are parameters of the generator embeddings: in
  the source they are `math.sqrt(3) * step_distance` (irrational, so
  not a fixed `ℚ` value) and `1.5 * step_distance`.
* Mutation is modelled by state passing; Python exceptions that escape
  a function (the `IndexError`/`KeyError` of `task_done`) by an
  `Option` result.
-/

/-- A latitude/longitude pair. -/
abbrev Loc : Type := ℚ × ℚ

/-- A queue item of the simple schedulers:
`(step, (lat, lng, alt), appears_seconds, disappears_seconds)`. -/
abbrev QItem : Type := ℕ × (ℚ × ℚ × ℚ) × ℤ × ℤ

/-- Python's `enumerate(xs, k)`: pair every element with its index,
starting from `k`. -/
def enumerateFrom (k : ℕ) : List α → List (ℕ × α)
  | [] => []
  | x :: xs => (k, x) :: enumerateFrom (k + 1) xs

theorem enumerateFrom_length (k : ℕ) (xs : List α) :
    (enumerateFrom k xs).length = xs.length := by
  induction xs generalizing k with
  | nil => rfl
  | cons x xs ih => simp [enumerateFrom, ih]

theorem enumerateFrom_map_fst (k : ℕ) (xs : List α) :
    (enumerateFrom k xs).map Prod.fst = List.range' k xs.length := by
  induction xs generalizing k with
  | nil => rfl
  | cons x xs ih => simp [enumerateFrom, ih, List.range'_succ]

theorem snd_mem_of_mem_enumerateFrom {k : ℕ} {xs : List α} {p : ℕ × α}
    (h : p ∈ enumerateFrom k xs) : p.2 ∈ xs := by
  induction xs generalizing k with
  | nil => simp [enumerateFrom] at h
  | cons x xs ih =>
    simp only [enumerateFrom, List.mem_cons] at h
    rcases h with h | h
    · subst h; simp
    · exact List.mem_cons_of_mem _ (ih h)

theorem enumerateFrom_pairwise {R : α → α → Prop} {xs : List α} (k : ℕ)
    (h : xs.Pairwise R) :
    (enumerateFrom k xs).Pairwise (fun p q => R p.2 q.2) := by
  induction xs generalizing k with
  | nil => exact List.Pairwise.nil
  | cons x xs ih =>
    rcases List.pairwise_cons.1 h with ⟨hx, hxs⟩
    refine List.pairwise_cons.2 ⟨?_, ih (k + 1) hxs⟩
    intro p hp
    exact hx _ (snd_mem_of_mem_enumerateFrom hp)

/-- Repeat a location-transforming move `n` times, appending each new
location to the accumulated result list.  This models a Python
`for i in range(n):` loop whose body moves `loc` and appends it to
`results`. -/
def repApp (f : Loc → Loc) : ℕ → Loc × List Loc → Loc × List Loc
  | 0, st => st
  | n + 1, (loc, acc) =>
    let loc2 := f loc
    repApp f n (loc2, acc ++ [loc2])

theorem repApp_length (f : Loc → Loc) (n : ℕ) (st : Loc × List Loc) :
    (repApp f n st).2.length = st.2.length + n := by
  induction n generalizing st with
  | zero => rfl
  | succ n ih =>
    obtain ⟨loc, acc⟩ := st
    simp only [repApp, ih]
    simp
    omega

/-- Append a single moved location (a lone `loc = get_new_coords(...)`
followed by `results.append(...)`). -/
def oneApp (f : Loc → Loc) (st : Loc × List Loc) : Loc × List Loc :=
  let loc2 := f st.1
  (loc2, st.2 ++ [loc2])

theorem oneApp_length (f : Loc → Loc) (st : Loc × List Loc) :
    (oneApp f st).2.length = st.2.length + 1 := by
  simp [oneApp]

/-! ### HexSearch._generate_locations -/

/-- Bearings used by the generators. -/
def NORTH : ℚ := 0

def EAST : ℚ := 90

def SOUTH : ℚ := 180

def WEST : ℚ := 270

/-- One iteration of the "upper part" `while ring < step_limit` loop of
`HexSearch._generate_locations`. -/
def hexUpperRing (gnc : Loc → ℚ → ℚ → Loc) (xdist ydist : ℚ) (st : Loc × List Loc)
    (ring : ℕ) : Loc × List Loc :=
  let st1 := oneApp (fun l => gnc l xdist (if ring % 2 = 1 then WEST else EAST)) st
  let st2 := repApp
    (fun l => gnc (gnc l ydist NORTH) (xdist / 2) (if ring % 2 = 1 then EAST else WEST))
    ring st1
  let st3 := repApp (fun l => gnc l xdist (if ring % 2 = 1 then EAST else WEST)) ring st2
  repApp
    (fun l => gnc (gnc l ydist SOUTH) (xdist / 2) (if ring % 2 = 1 then EAST else WEST))
    ring st3

theorem hexUpperRing_length (gnc : Loc → ℚ → ℚ → Loc) (xdist ydist : ℚ)
    (st : Loc × List Loc) (ring : ℕ) :
    (hexUpperRing gnc xdist ydist st ring).2.length = st.2.length + (3 * ring + 1) := by
  simp only [hexUpperRing, repApp_length, oneApp_length]
  omega

/-- The "lower part" `while ring > 0` loop of
`HexSearch._generate_locations`, by recursion on `ring`. -/
def hexLower (gnc : Loc → ℚ → ℚ → Loc) (xdist ydist : ℚ) :
    ℕ → Loc × List Loc → Loc × List Loc
  | 0, st => st
  | 1, st => oneApp (fun l => gnc l xdist WEST) st
  | (r + 2), st =>
    let ring := r + 2
    let st1 := repApp
      (fun l => gnc (gnc l ydist SOUTH) (xdist / 2) (if ring % 2 = 1 then WEST else EAST))
      (ring - 1) st
    let st2 := repApp (fun l => gnc l xdist (if ring % 2 = 1 then WEST else EAST)) ring st1
    let st3 := repApp
      (fun l => gnc (gnc l ydist NORTH) (xdist / 2) (if ring % 2 = 1 then WEST else EAST))
      (ring - 1) st2
    let st4 := oneApp (fun l => gnc l xdist (if ring % 2 = 1 then EAST else WEST)) st3
    hexLower gnc xdist ydist (r + 1) st4

/-- Number of locations appended by the lower-part loop started at a
given ring. -/
def hexLowerCount : ℕ → ℕ
  | 0 => 0
  | 1 => 1
  | (r + 2) => (3 * (r + 2) - 1) + hexLowerCount (r + 1)

theorem hexLower_length (gnc : Loc → ℚ → ℚ → Loc) (xdist ydist : ℚ) (r : ℕ)
    (st : Loc × List Loc) :
    (hexLower gnc xdist ydist r st).2.length = st.2.length + hexLowerCount r := by
  induction r using Nat.strong_induction_on generalizing st with
  | _ r ih =>
    match r with
    | 0 => rfl
    | 1 => simp [hexLower, hexLowerCount, oneApp_length]
    | (r + 2) =>
      simp only [hexLower, hexLowerCount]
      rw [ih (r + 1) (by omega)]
      simp only [repApp_length, oneApp_length]
      omega

/-- The raw `results` list built by `HexSearch._generate_locations`
before the "center nugget" rotation: the origin, then the upper-part
rings `1 .. step_limit-1`, then (when `step_limit > 1`) one seam
append followed by the lower part started at `step_limit - 1`. -/
def hexResults (gnc : Loc → ℚ → ℚ → Loc) (xdist ydist : ℚ) (step_limit : ℕ)
    (origin : Loc) : List Loc :=
  let st0 : Loc × List Loc := (origin, [origin])
  if step_limit > 1 then
    let stUp := (List.range' 1 (step_limit - 1)).foldl (hexUpperRing gnc xdist ydist) st0
    let ring := step_limit - 1
    let stSeam := oneApp
      (fun l => gnc (gnc l ydist SOUTH) (xdist / 2) (if ring % 2 = 1 then WEST else EAST))
      stUp
    (hexLower gnc xdist ydist ring stSeam).2
  else
    st0.2

/-- Total appended by the upper rings `1 .. k`. -/
def hexUpperCount : ℕ → ℕ
  | 0 => 0
  | (k + 1) => hexUpperCount k + (3 * (k + 1) + 1)

theorem hexUpper_foldl_length (gnc : Loc → ℚ → ℚ → Loc) (xdist ydist : ℚ) (k : ℕ)
    (st : Loc × List Loc) :
    (((List.range' 1 k).foldl (hexUpperRing gnc xdist ydist) st)).2.length =
      st.2.length + hexUpperCount k := by
  induction k generalizing st with
  | zero => rfl
  | succ k ih =>
    rw [List.range'_concat, List.foldl_append]
    simp only [List.foldl_cons, List.foldl_nil, hexUpperRing_length, ih, hexUpperCount]
    omega

theorem hexUpper_lower_count (k : ℕ) :
    hexUpperCount (k + 1) + hexLowerCount (k + 1) + 1 = 3 * (k + 1) * (k + 2) := by
  induction k with
  | zero => decide
  | succ k ih =>
    simp only [hexUpperCount, hexLowerCount] at ih ⊢
    ring_nf at ih ⊢
    omega

theorem hexResults_length (gnc : Loc → ℚ → ℚ → Loc) (xdist ydist : ℚ)
    (step_limit : ℕ) (origin : Loc) (h : 1 ≤ step_limit) :
    (hexResults gnc xdist ydist step_limit origin).length =
      1 + 3 * (step_limit - 1) * step_limit := by
  obtain ⟨m, rfl⟩ : ∃ m, step_limit = m + 1 := ⟨step_limit - 1, by omega⟩
  simp only [Nat.add_sub_cancel]
  cases m with
  | zero => simp [hexResults]
  | succ k =>
    simp only [hexResults, if_pos (by omega : k + 1 + 1 > 1), hexLower_length,
      oneApp_length, hexUpper_foldl_length, List.length_cons, List.length_nil,
      Nat.add_sub_cancel]
    have hk := hexUpper_lower_count k
    ring_nf at hk ⊢
    omega

/-- The "center nugget" rotation `results[-k:] + results[:-k]` of
`HexSearch._generate_locations` (for lists at least `k` long this is
Python's slicing semantics; for shorter lists both agree with the
identity). -/
def rotateLast (k : ℕ) (xs : List Loc) : List Loc :=
  xs.drop (xs.length - k) ++ xs.take (xs.length - k)

theorem rotateLast_length (k : ℕ) (xs : List Loc) :
    (rotateLast k xs).length = xs.length := by
  simp only [rotateLast, List.length_append, List.length_drop, List.length_take]
  omega

/-- Embedding of `HexSearch._generate_locations`: build the raw ring traversal,
apply the center-nugget rotation for `step_limit ≥ 3`, then zero the
appear/disappear times, enumerating steps from 1 and attaching the
(elevation-lookup plus jitter) altitude `alt`. -/
def hexsearch_generate_locations (gnc : Loc → ℚ → ℚ → Loc) (alt : Loc → ℚ)
    (xdist ydist : ℚ) (step_limit : ℕ) (origin : Loc) : List QItem :=
  let results := hexResults gnc xdist ydist step_limit origin
  let results :=
    if step_limit ≥ 3 then
      if step_limit = 3 then rotateLast 2 results else rotateLast 7 results
    else results
  (enumerateFrom 1 results).map
    (fun p => (p.1, (p.2.1, p.2.2, alt p.2), (0 : ℤ), (0 : ℤ)))

theorem hexsearch_generate_locations_length (gnc : Loc → ℚ → ℚ → Loc)
    (alt : Loc → ℚ) (xdist ydist : ℚ) (step_limit : ℕ) (origin : Loc)
    (h : 1 ≤ step_limit) :
    (hexsearch_generate_locations gnc alt xdist ydist step_limit origin).length =
      1 + 3 * (step_limit - 1) * step_limit := by
  simp only [hexsearch_generate_locations, List.length_map, enumerateFrom_length]
  split
  · split <;> rw [rotateLast_length, hexResults_length _ _ _ _ _ h]
  · exact hexResults_length _ _ _ _ _ h

/-! ### SpeedScan._generate_locations -/

/-- One iteration (`ring`) of the `for ring in range(1, self.step_limit)`
loop of `SpeedScan._generate_locations`. -/
def speedRing (gnc : Loc → ℚ → ℚ → Loc) (xdist ydist : ℚ) (step_limit : ℕ)
    (st : Loc × List Loc) (ring : ℕ) : Loc × List Loc :=
  let st1 := repApp
    (fun l => gnc (if ring > 1 then gnc l ydist NORTH else l)
      (xdist / (if ring > 1 then 2 else 1)) WEST)
    (max (ring - 1) 1) st
  let st2 := repApp (fun l => gnc (gnc l ydist NORTH) (xdist / 2) EAST) ring st1
  let st3 := repApp (fun l => gnc l xdist EAST) ring st2
  let st4 := repApp (fun l => gnc (gnc l ydist SOUTH) (xdist / 2) EAST) ring st3
  let st5 := repApp (fun l => gnc (gnc l ydist SOUTH) (xdist / 2) WEST) ring st4
  repApp (fun l => gnc l xdist WEST)
    (ring + (if ring + 1 < step_limit then 1 else 0)) st5

/-- Number of locations appended by `speedRing` at a given ring. -/
def speedRingCost (step_limit ring : ℕ) : ℕ :=
  max (ring - 1) 1 + 5 * ring + (if ring + 1 < step_limit then 1 else 0)

theorem speedRing_length (gnc : Loc → ℚ → ℚ → Loc) (xdist ydist : ℚ)
    (step_limit : ℕ) (st : Loc × List Loc) (ring : ℕ) :
    (speedRing gnc xdist ydist step_limit st ring).2.length =
      st.2.length + speedRingCost step_limit ring := by
  simp only [speedRing, repApp_length, speedRingCost]
  omega

/-- The `results` list of `SpeedScan._generate_locations`. -/
def speedResults (gnc : Loc → ℚ → ℚ → Loc) (xdist ydist : ℚ) (step_limit : ℕ)
    (origin : Loc) : List Loc :=
  ((List.range' 1 (step_limit - 1)).foldl (speedRing gnc xdist ydist step_limit)
    (origin, [origin])).2

/-- Total appended by the speed-scan rings `1 .. k` (with a fixed
`step_limit`). -/
def speedCount (step_limit : ℕ) : ℕ → ℕ
  | 0 => 0
  | (k + 1) => speedCount step_limit k + speedRingCost step_limit (k + 1)

theorem speed_foldl_length (gnc : Loc → ℚ → ℚ → Loc) (xdist ydist : ℚ)
    (step_limit k : ℕ) (st : Loc × List Loc) :
    ((List.range' 1 k).foldl (speedRing gnc xdist ydist step_limit) st).2.length =
      st.2.length + speedCount step_limit k := by
  induction k generalizing st with
  | zero => rfl
  | succ k ih =>
    rw [List.range'_concat, List.foldl_append]
    simp only [List.foldl_cons, List.foldl_nil, speedRing_length, ih, speedCount]
    rw [show 1 + 1 * k = k + 1 from by omega]
    omega

/-- Sum of the `step_limit`-independent part of the ring costs. -/
def speedBaseCount : ℕ → ℕ
  | 0 => 0
  | (k + 1) => speedBaseCount k + (max k 1 + 5 * (k + 1))

theorem speedCount_below (step_limit k : ℕ) (h : k + 1 < step_limit) :
    speedCount step_limit k = speedBaseCount k + k := by
  induction k with
  | zero => rfl
  | succ k ih =>
    simp only [speedCount, speedBaseCount, speedRingCost, if_pos h,
      ih (by omega), Nat.add_sub_cancel]
    omega

theorem speedCount_full (k : ℕ) :
    speedCount (k + 2) (k + 1) = speedBaseCount (k + 1) + k := by
  simp only [speedCount, speedRingCost, speedBaseCount,
    speedCount_below (k + 2) k (by omega), Nat.add_sub_cancel]
  simp only [if_neg (by omega : ¬ k + 1 + 1 < k + 2)]
  omega

theorem speedBaseCount_total (k : ℕ) :
    speedBaseCount (k + 1) + k = 3 * (k + 1) * (k + 2) := by
  induction k with
  | zero => decide
  | succ k ih =>
    simp only [speedBaseCount] at ih ⊢
    ring_nf at ih ⊢
    omega

theorem speedResults_length (gnc : Loc → ℚ → ℚ → Loc) (xdist ydist : ℚ)
    (step_limit : ℕ) (origin : Loc) (h : 1 ≤ step_limit) :
    (speedResults gnc xdist ydist step_limit origin).length =
      1 + 3 * (step_limit - 1) * step_limit := by
  obtain ⟨m, rfl⟩ : ∃ m, step_limit = m + 1 := ⟨step_limit - 1, by omega⟩
  simp only [speedResults, speed_foldl_length, Nat.add_sub_cancel,
    List.length_cons, List.length_nil]
  cases m with
  | zero => rfl
  | succ k =>
    rw [show k + 1 + 1 = k + 2 from by omega]
    have h1 := speedCount_full k
    have h2 := speedBaseCount_total k
    omega

/-- Embedding of `SpeedScan._generate_locations`: the hex traversal with fixed ring
locations, altitude 0, and steps enumerated from 0. -/
def speedscan_generate_locations (gnc : Loc → ℚ → ℚ → Loc) (xdist ydist : ℚ)
    (step_limit : ℕ) (origin : Loc) : List QItem :=
  (enumerateFrom 0 (speedResults gnc xdist ydist step_limit origin)).map
    (fun p => (p.1, (p.2.1, p.2.2, (0 : ℚ)), (0 : ℤ), (0 : ℤ)))

theorem speedscan_generate_locations_length (gnc : Loc → ℚ → ℚ → Loc)
    (xdist ydist : ℚ) (step_limit : ℕ) (origin : Loc) (h : 1 ≤ step_limit) :
    (speedscan_generate_locations gnc xdist ydist step_limit origin).length =
      1 + 3 * (step_limit - 1) * step_limit := by
  simp only [speedscan_generate_locations, List.length_map, enumerateFrom_length]
  exact speedResults_length _ _ _ _ _ h

/-! ### SpawnScan._generate_locations -/

/-- A spawn point as loaded from the JSON file or database:
`{lat, lng, time}` with `time` the appearance second within the hour. -/
structure SpawnLoc where
  lat : ℚ
  lng : ℚ
  time : ℤ
deriving DecidableEq

/-- The wall-clock appearance timestamp computed by
`SpawnScan._generate_locations` for appearance second `t`, at current
timestamp `nw` and current second-within-hour `cs`. -/
def spawn_appears (nw cs t : ℤ) : ℤ :=
  if t > cs then nw + (t - cs) else nw + 3600 - (cs - t)

/-- The timestamp-conversion, sorting and enumeration core of
`SpawnScan._generate_locations` (the JSON/database loading and the
elevation lookup feeding `alt` are outside the scheduler's algorithm). -/
def spawnscan_generate_locations (alt : Loc → ℚ) (nw cs : ℤ)
    (locs : List SpawnLoc) : List QItem :=
  let timed := locs.map
    (fun l => (l, spawn_appears nw cs l.time, spawn_appears nw cs l.time + 900))
  let sorted := timed.mergeSort (fun a b => decide (a.2.1 ≤ b.2.1))
  (enumerateFrom 1 sorted).map
    (fun p => (p.1, (p.2.1.lat, p.2.1.lng, alt (p.2.1.lat, p.2.1.lng)),
      p.2.2.1, p.2.2.2))

/-! ### SpeedScan queue items and scheduler state -/

/-- The `kind` of a SpeedScan queue item. -/
inductive Kind where
  | band
  | tth
  | spawn
deriving DecidableEq

/-- The overloaded `done` field of a SpeedScan queue item: absent/`None`,
`'Scanned'`, `'Missed'`, or a numeric start delay. -/
inductive Done where
  | none
  | scanned
  | missed
  | delay (d : ℚ)
deriving DecidableEq

/-- Python truthiness of `item.get('done', False)`: absent/`None` and the
number `0` are falsy, everything else is truthy. -/
def isDone : Done → Bool
  | .none => false
  | .scanned => true
  | .missed => true
  | .delay d => d ≠ 0

/-- A SpeedScan queue item (a Python dict produced by
`ScannedLocation.get_times` / `SpawnPoint.get_times`). -/
structure Item where
  step : ℕ
  loc : Loc
  start : ℚ
  end_ : ℚ
  kind : Kind
  sp : Option ℕ
  done : Done
deriving DecidableEq

/-- The mutable state of a `SpeedScan` instance (the fields the claims
mention; `kph` and `spawn_delay` are the configuration arguments
`args.kph` and `args.spawn_delay`). -/
structure SpeedState where
  queue : List Item
  ready : Bool
  refresh_date : ℚ
  refresh_ms : ℚ
  next_band_date : ℚ
  band_spacing : ℚ
  kph : ℚ
  spawn_delay : ℚ
  scans_done : ℕ
  scans_missed_list : List ℕ
  spawns_found : ℕ
  spawns_missed_delay : List (ℕ × List ℚ)
deriving DecidableEq

/-- A worker status dict, as read and written by `next_item`/`task_done`. -/
structure WStatus where
  latitude : ℚ
  longitude : ℚ
  last_scan_date : ℚ
  index_of_queue_item : ℕ
deriving DecidableEq

/-- The scoring base: `1e12` for a band, `1e6` for a TTH item, `1` for a
spawn. -/
def itemBase : Kind → ℚ
  | .band => 10 ^ 12
  | .tth => 10 ^ 6
  | .spawn => 1

/-- The score `base / (distance + .01)` given to a candidate item. -/
def itemScore (dist : Loc → Loc → ℚ) (wloc : Loc) (it : Item) : ℚ :=
  itemBase it.kind / (dist it.loc wloc + 1 / 100)

/-- The running `best` dict of `next_item`: its score, the index `i` of
the best item, and the best item's fields (absent until a first
candidate is scored, matching `best = {'score': 0}`). -/
structure Best where
  score : ℚ
  i : ℕ
  item : Option Item
deriving DecidableEq

/-- The `wait` message selected by a sentinel return of
`SpeedScan.next_item`. -/
inductive WaitMsg where
  | nothingToScan
  | cantReachAny
  | moving
  | skipping
  | aborting
deriving DecidableEq

/-- The outcome of `SpeedScan.next_item`: a sentinel `(-1, 0, 0, 0,
messages)` carrying the chosen `wait` message, or a claimed item's
`(step, loc, 0, 0, messages)`. -/
inductive NIResult where
  | sentinel (wait : WaitMsg)
  | claimed (step : ℕ) (loc : Loc)
deriving DecidableEq

/-- Result of `next_item`: the updated scheduler state, the
`status['index_of_queue_item']` write (if any), and the returned
value. -/
structure NIOut where
  s : SpeedState
  statusIndex : Option ℕ
  result : NIResult
deriving DecidableEq

/-- The item-scanning loop of `SpeedScan.next_item` (`for i, item in
enumerate(q)`), with current index `i`, running `best` and `cant_reach`
flag.  Returns the queue (with stale items marked `'Missed'`), the final
`best` and `cant_reach`.  `ms` is the virtual clock, `now` the wall
clock, `nbd` the `next_band_date`, `wloc` the worker location, `dist`
the opaque `equi_rect_distance`. -/
def nextLoop (dist : Loc → Loc → ℚ) (ms now nbd kph : ℚ) (wloc : Loc) :
    List Item → ℕ → Best → Bool → List Item × Best × Bool
  | [], _, best, cr => ([], best, cr)
  | item :: rest, i, best, cr =>
    if isDone item.done then
      let r := nextLoop dist ms now nbd kph wloc rest (i + 1) best cr
      (item :: r.1, r.2)
    else if ms > item.end_ then
      let r := nextLoop dist ms now nbd kph wloc rest (i + 1) best cr
      ({ item with done := .missed } :: r.1, r.2)
    else if now < nbd then
      let r := nextLoop dist ms now nbd kph wloc rest (i + 1) best cr
      (item :: r.1, r.2)
    else if ms < item.start then
      (item :: rest, best, cr)
    else
      let d := dist item.loc wloc
      if ms + d / kph * 3600 > item.end_ then
        let r := nextLoop dist ms now nbd kph wloc rest (i + 1) best true
        (item :: r.1, r.2)
      else
        let score := itemBase item.kind / (d + 1 / 100)
        let best2 := if score > best.score then Best.mk score i (some item) else best
        let r := nextLoop dist ms now nbd kph wloc rest (i + 1) best2 cr
        (item :: r.1, r.2)

/-- Embedding of `SpeedScan.next_item`.  The preceding `while not self.ready:
time.sleep(1)` spin-wait only terminates when `ready` holds, so calls
are modelled from that point on; the body's own late `if not
self.ready` re-check is kept.  The unreachable `best.item = none`
fallback mirrors the `best.get(..., default)` reads of the source. -/
def next_item (dist : Loc → Loc → ℚ) (s : SpeedState) (status : WStatus)
    (now : ℚ) : NIOut :=
  let ms := (now - s.refresh_date) + s.refresh_ms
  let wloc : Loc := (status.latitude, status.longitude)
  let r := nextLoop dist ms now s.next_band_date s.kph wloc s.queue 0
    (Best.mk 0 0 Option.none) false
  let q := r.1
  let best := r.2.1
  let cant_reach := r.2.2
  match q.get? best.i with
  | Option.none => NIOut.mk { s with queue := q } Option.none (.sentinel .aborting)
  | some item =>
    if best.score = 0 then
      if cant_reach then
        NIOut.mk { s with queue := q } Option.none (.sentinel .cantReachAny)
      else
        NIOut.mk { s with queue := q } Option.none (.sentinel .nothingToScan)
    else
      match best.item with
      | Option.none => NIOut.mk { s with queue := q } Option.none (.sentinel .nothingToScan)
      | some b =>
        if dist b.loc wloc > (now - status.last_scan_date) * s.kph / 3600 then
          NIOut.mk { s with queue := q } Option.none (.sentinel .moving)
        else if isDone item.done then
          NIOut.mk { s with queue := q } Option.none (.sentinel .skipping)
        else if s.ready = false then
          NIOut.mk { s with queue := q } Option.none (.sentinel .aborting)
        else
          let nbd := if b.kind = .band ∧ b.end_ - b.start > 5 * 60 then
            now + s.band_spacing else s.next_band_date
          NIOut.mk
            { s with queue := q.set best.i { item with done := .scanned },
                     next_band_date := nbd }
            (some best.i) (.claimed b.step b.loc)

/-! ### SpeedScan.task_done -/

/-- The parsed-scan record handed to `task_done`: the spawn ids seen and
the bad-scan flag.  The Python default `parsed=False` and any other
falsy argument are modelled as `Option.none`. -/
structure Parsed where
  sp_id_list : List ℕ
  bad_scan : Bool
deriving DecidableEq

/-- Python `int(x)` on a float: truncation toward zero. -/
def pytrunc (q : ℚ) : ℤ :=
  if 0 ≤ q then ⌊q⌋ else ⌈q⌉

/-- Dict update `self.spawns_missed_delay[sp_id] = self.spawns_missed_delay.get(sp_id, [])`
followed by `.append(start_delay)`: dict update modelled on an
association list. -/
def smdAppend (m : List (ℕ × List ℚ)) (k : ℕ) (v : ℚ) : List (ℕ × List ℚ) :=
  match m.lookup k with
  | some l => m.map (fun p => if p.1 = k then (k, l ++ [v]) else p)
  | Option.none => m ++ [(k, [v])]

/-- The closing loop of `task_done`: for every observed spawn id, mark
any queue item for that spawn point that is still pending (`done is
None`) and whose window contains `now_secs` as `'Scanned'`. -/
def markOwnedSpawn (spId : ℕ) (now_secs : ℚ) (q : List Item) : List Item :=
  q.map (fun it =>
    if it.sp = some spId ∧ it.done = Done.none ∧ now_secs > it.start ∧
        now_secs < it.end_ then
      { it with done := .scanned }
    else it)

/-- Fold of `markOwnedSpawn` over `parsed['sp_id_list']`. -/
def markOthers (ids : List ℕ) (now_secs : ℚ) (q : List Item) : List Item :=
  ids.foldl (fun q spId => markOwnedSpawn spId now_secs q) q

/-- Embedding of `SpeedScan.task_done`.  `cellid` is the opaque cell-id function from
`pogom.utils`; `now` the wall clock at the call, `now_secs` the value of
`date_secs(datetime.utcnow())`.  A `None` result models the uncaught
`IndexError`/`KeyError` the source would raise on a bad queue index or a
spawn item without `sp` key. -/
def task_done (cellid : Loc → ℕ) (s : SpeedState) (status : WStatus)
    (parsed : Option Parsed) (now now_secs : ℚ) : Option SpeedState :=
  match parsed with
  | Option.none => some s
  | some p =>
    match s.queue.get? status.index_of_queue_item with
    | Option.none => Option.none
    | some item =>
      let idx := status.index_of_queue_item
      let seconds_within_band : ℚ := (pytrunc (now - s.refresh_date) : ℚ) + s.refresh_ms
      let start_delay := seconds_within_band - item.start -
        (if item.kind = .spawn then s.spawn_delay else 0)
      let safety_buffer := item.end_ - seconds_within_band
      let s1 : Option SpeedState :=
        if safety_buffer < 0 then
          some s
        else if p.bad_scan then
          some { s with
            scans_missed_list := s.scans_missed_list ++ [cellid item.loc],
            queue := s.queue.set idx { item with done := Done.none } }
        else
          let sA := { s with
            scans_done := s.scans_done + 1,
            queue := s.queue.set idx { item with done := .delay start_delay } }
          if item.kind = .spawn then
            match item.sp with
            | Option.none => Option.none
            | some spId =>
              if spId ∈ p.sp_id_list then
                some { sA with spawns_found := sA.spawns_found + 1 }
              else if start_delay > 0 then
                some { sA with
                  spawns_missed_delay := smdAppend sA.spawns_missed_delay spId start_delay,
                  queue := sA.queue.set idx { item with done := .scanned } }
              else
                some sA
          else
            some sA
      match s1 with
      | Option.none => Option.none
      | some s2 => some { s2 with queue := markOthers p.sp_id_list now_secs s2.queue }

/-! ### schedule / empty_queues -/

/-- The mutable state of a `HexSearch` instance.  `locations = none`
models the initial `self.locations = False`; note Python's
`if not self.locations` also treats a cached empty list as unset. -/
structure HexState where
  scan_location : Option Loc
  locations : Option (List QItem)
  queue : List QItem
  size : Option ℕ
  ready : Bool
  step_limit : ℕ
deriving DecidableEq

/-- Python truthiness of `not self.locations`. -/
def locationsFalsy : Option (List QItem) → Bool
  | Option.none => true
  | some [] => true
  | some (_ :: _) => false

/-- Embedding of `HexSearch.schedule`: regenerate the location list only when unset,
then append every location to the queue, record the size and set
`ready`. -/
def hexsearch_schedule (gnc : Loc → ℚ → ℚ → Loc) (alt : Loc → ℚ)
    (xdist ydist : ℚ) (s : HexState) : HexState :=
  match s.scan_location with
  | Option.none => s
  | some origin =>
    let locs :=
      if locationsFalsy s.locations then
        hexsearch_generate_locations gnc alt xdist ydist s.step_limit origin
      else
        s.locations.getD []
    { s with
      locations := some locs,
      queue := s.queue ++ locs,
      size := some locs.length,
      ready := true }

/-- Embedding of `BaseScheduler.__init__`: the readiness flag starts false (with the
given configuration and an empty queue). -/
def base_init (step_limit : ℕ) : HexState :=
  { scan_location := Option.none, locations := Option.none, queue := [],
    size := Option.none, ready := false, step_limit := step_limit }

/-- Embedding of `BaseScheduler.empty_queues` (inherited by `HexSearch`,
`HexSearchSpawnpoint` and `SpawnScan`): clear `ready` and drain the
queue. -/
def base_empty_queues (s : HexState) : HexState :=
  { s with ready := false, queue := [] }

/-- Embedding of `SpeedScan.empty_queues` (overrides the base version): replace the
queue list by `[[]]`; the `ready` flag is not touched. -/
def speedscan_empty_queues (s : SpeedState) : SpeedState :=
  { s with queue := [] }

/-- Embedding of `SpeedScan.schedule`: reset `ready`, snapshot the refresh epoch,
rebuild the queue from storage (`ScannedLocation.get_times` and
`SpawnPoint.get_times` per cell, both opaque storage reads), sort it by
`start`, and set `ready`.  `nowMS` is `now_date.minute * 60 +
now_date.second`.  The trailing performance-statistics block of the
source (guarded by `try`) only logs and resets the statistics counters;
it is not modelled, since no claim depends on those counters after a
refresh. -/
def speedscan_schedule (get_times_scanned get_times_spawn : ℕ → List Item)
    (scans : List ℕ) (s : SpeedState) (now nowMS : ℚ) : SpeedState :=
  let queue := scans.foldl (fun acc c => acc ++ get_times_scanned c ++ get_times_spawn c) []
  let queue := queue.mergeSort (fun a b => decide (a.start ≤ b.start))
  { s with
    ready := true,
    refresh_date := now,
    refresh_ms := nowMS,
    queue := queue }

/-! ### Claim C10: task_done with falsy `parsed` is a no-op -/

/-- Claim C10.  For every worker status and scheduler state, calling
`SpeedScan.task_done` with a falsy `parsed` argument (the default
`parsed=False` included) returns with the entire scheduler state — the
queue and each item's `done`, `scans_done`, `spawns_found`,
`spawns_missed_delay`, `scans_missed_list` — exactly as before. -/
theorem claim_C10 (cellid : Loc → ℕ) (s : SpeedState) (status : WStatus)
    (now now_secs : ℚ) :
    task_done cellid s status Option.none now now_secs = some s := rfl

/-! ### Claim C9: step numbering off by one between generators -/

theorem enumFrom_map_step {β : Type} (k : ℕ) (xs : List α) (f : ℕ × α → β)
    (g : β → ℕ) (hf : ∀ p, g (f p) = p.1) :
    ((enumerateFrom k xs).map f).map g = List.range' k xs.length := by
  rw [List.map_map]
  have hc : (g ∘ f) = Prod.fst := funext fun p => hf p
  rw [hc, enumerateFrom_map_fst]

theorem range'_map_add_one (s m : ℕ) :
    List.range' (s + 1) m = (List.range' s m).map (· + 1) := by
  induction m generalizing s with
  | zero => rfl
  | succ m ih => simp only [List.range'_succ, List.map_cons, ih]

/-- Claim C9.  `SpeedScan._generate_locations` numbers steps from 0
(`enumerate(results)`), whereas `HexSearch._generate_locations` and
`SpawnScan._generate_locations` number steps from 1
(`enumerate(..., 1)`): the step fields of the emitted items are
`0, 1, …, n-1` for SpeedScan and `1, 2, …, n` for the other two, so the
step surfaced for a given cell position differs by one. -/
theorem claim_C9 (gnc : Loc → ℚ → ℚ → Loc) (alt : Loc → ℚ) (xdist ydist : ℚ)
    (step_limit : ℕ) (origin : Loc) (nw cs : ℤ) (locs : List SpawnLoc) :
    (speedscan_generate_locations gnc xdist ydist step_limit origin).map Prod.fst =
      List.range' 0 (speedscan_generate_locations gnc xdist ydist step_limit origin).length ∧
    (hexsearch_generate_locations gnc alt xdist ydist step_limit origin).map Prod.fst =
      List.range' 1 (hexsearch_generate_locations gnc alt xdist ydist step_limit origin).length ∧
    (spawnscan_generate_locations alt nw cs locs).map Prod.fst =
      List.range' 1 (spawnscan_generate_locations alt nw cs locs).length ∧
    (∀ m, List.range' 1 m = (List.range' 0 m).map (· + 1)) := by
  refine ⟨?_, ?_, ?_, fun m => range'_map_add_one 0 m⟩
  · simp only [speedscan_generate_locations, List.length_map, enumerateFrom_length]
    exact enumFrom_map_step _ _ _ _ (fun p => rfl)
  · simp only [hexsearch_generate_locations, List.length_map, enumerateFrom_length]
    exact enumFrom_map_step _ _ _ _ (fun p => rfl)
  · simp only [spawnscan_generate_locations, List.length_map, enumerateFrom_length]
    exact enumFrom_map_step _ _ _ _ (fun p => rfl)

/-! ### Claim C5: cell counts of the hex generators -/

/-- Claim C5.  For every origin and `ring_limit ≥ 1`, the location
generators of `HexSearch` and of `SpeedScan` each produce exactly
`1 + 3·(ring_limit−1)·ring_limit` cell centers; `ring_limit = 1` yields
exactly the single origin cell. -/
theorem claim_C5 (gnc : Loc → ℚ → ℚ → Loc) (alt : Loc → ℚ) (xdist ydist : ℚ)
    (step_limit : ℕ) (origin : Loc) (h : 1 ≤ step_limit) :
    (hexsearch_generate_locations gnc alt xdist ydist step_limit origin).length =
      1 + 3 * (step_limit - 1) * step_limit ∧
    (speedscan_generate_locations gnc xdist ydist step_limit origin).length =
      1 + 3 * (step_limit - 1) * step_limit ∧
    (step_limit = 1 →
      hexsearch_generate_locations gnc alt xdist ydist step_limit origin =
        [(1, (origin.1, origin.2, alt origin), 0, 0)] ∧
      speedscan_generate_locations gnc xdist ydist step_limit origin =
        [(0, (origin.1, origin.2, 0), 0, 0)]) := by
  refine ⟨hexsearch_generate_locations_length _ _ _ _ _ _ h,
    speedscan_generate_locations_length _ _ _ _ _ h, ?_⟩
  rintro rfl
  constructor
  · simp [hexsearch_generate_locations, hexResults, enumerateFrom]
  · simp [speedscan_generate_locations, speedResults, enumerateFrom]

theorem claim_C5_witness :
    1 ≤ 2 ∧
    ((hexsearch_generate_locations (fun l _ _ => l) (fun _ => 0) 0 0 2 (0, 0)).length =
        1 + 3 * (2 - 1) * 2 ∧
      (speedscan_generate_locations (fun l _ _ => l) 0 0 2 (0, 0)).length =
        1 + 3 * (2 - 1) * 2 ∧
      (2 = 1 →
        hexsearch_generate_locations (fun l _ _ => l) (fun _ => 0) 0 0 2 (0, 0) =
          [(1, ((0 : ℚ), (0 : ℚ), (0 : ℚ)), 0, 0)] ∧
        speedscan_generate_locations (fun l _ _ => l) 0 0 2 (0, 0) =
          [(0, ((0 : ℚ), (0 : ℚ), (0 : ℚ)), 0, 0)])) :=
  ⟨by decide, claim_C5 (fun l _ _ => l) (fun _ => 0) 0 0 2 (0, 0) (by decide)⟩

/-! ### Claim C8 (corrected): the readiness flag -/

/-- Claim C8, counterexample.  The claim says the `ready` flag flips false
on any call to `empty_queues()`, in particular after
`SpeedScan.empty_queues()`.  But `SpeedScan.empty_queues` (which
overrides the base version) only replaces the queue by `[[]]` and never
touches `ready`: on a ready state it stays `true`. -/
theorem claim_C8_counterexample :
    (speedscan_empty_queues
      ⟨[], true, 0, 0, 0, 10, 3600, 0, 0, [], 0, []⟩).ready = true := rfl

/-- Claim C8, amended.  The `ready` flag starts false; `HexSearch.schedule`
(once a scan location is set) and `SpeedScan.schedule` end with
`ready = true`; `BaseScheduler.empty_queues` (inherited by the other
schedulers) sets `ready` to false; but `SpeedScan.empty_queues` only
empties the queue and leaves `ready` exactly as it was. -/
theorem claim_C8_amended (gnc : Loc → ℚ → ℚ → Loc) (alt : Loc → ℚ)
    (xdist ydist : ℚ) (step_limit : ℕ) (hs : HexState) (origin : Loc)
    (hloc : hs.scan_location = some origin)
    (get_times_scanned get_times_spawn : ℕ → List Item) (scans : List ℕ)
    (ss : SpeedState) (now nowMS : ℚ) :
    (base_init step_limit).ready = false ∧
    (hexsearch_schedule gnc alt xdist ydist hs).ready = true ∧
    (speedscan_schedule get_times_scanned get_times_spawn scans ss now nowMS).ready
      = true ∧
    (base_empty_queues hs).ready = false ∧
    (speedscan_empty_queues ss).ready = ss.ready ∧
    (speedscan_empty_queues ss).queue = [] := by
  refine ⟨rfl, ?_, rfl, rfl, rfl, rfl⟩
  simp only [hexsearch_schedule, hloc]

theorem claim_C8_amended_witness :
    (⟨some (0, 0), Option.none, [], Option.none, false, 1⟩ : HexState).scan_location
      = some (0, 0) ∧
    ((base_init 1).ready = false ∧
     (hexsearch_schedule (fun l _ _ => l) (fun _ => 0) 0 0
        ⟨some (0, 0), Option.none, [], Option.none, false, 1⟩).ready = true ∧
     (speedscan_schedule (fun _ => []) (fun _ => []) []
        ⟨[], false, 0, 0, 0, 10, 3600, 0, 0, [], 0, []⟩ 0 0).ready = true ∧
     (base_empty_queues ⟨some (0, 0), Option.none, [], Option.none, false, 1⟩).ready
        = false ∧
     (speedscan_empty_queues ⟨[], false, 0, 0, 0, 10, 3600, 0, 0, [], 0, []⟩).ready =
        (⟨[], false, 0, 0, 0, 10, 3600, 0, 0, [], 0, []⟩ : SpeedState).ready ∧
     (speedscan_empty_queues ⟨[], false, 0, 0, 0, 10, 3600, 0, 0, [], 0, []⟩).queue
        = []) :=
  ⟨rfl, claim_C8_amended (fun l _ _ => l) (fun _ => 0) 0 0 1
    ⟨some (0, 0), Option.none, [], Option.none, false, 1⟩ (0, 0) rfl
    (fun _ => []) (fun _ => []) []
    ⟨[], false, 0, 0, 0, 10, 3600, 0, 0, [], 0, []⟩ 0 0⟩

/-! ### Claim C7 (corrected): schedule() twice is not idempotent -/

theorem hexResults_length_pos (gnc : Loc → ℚ → ℚ → Loc) (xdist ydist : ℚ)
    (step_limit : ℕ) (origin : Loc) :
    1 ≤ (hexResults gnc xdist ydist step_limit origin).length := by
  unfold hexResults
  split
  · simp only [hexLower_length, oneApp_length, hexUpper_foldl_length,
      List.length_cons, List.length_nil]
    omega
  · simp

theorem hexsearch_generate_locations_ne_nil (gnc : Loc → ℚ → ℚ → Loc)
    (alt : Loc → ℚ) (xdist ydist : ℚ) (step_limit : ℕ) (origin : Loc) :
    hexsearch_generate_locations gnc alt xdist ydist step_limit origin ≠ [] := by
  have h := hexResults_length_pos gnc xdist ydist step_limit origin
  intro hcon
  replace hcon := congrArg List.length hcon
  simp only [hexsearch_generate_locations, List.length_map, enumerateFrom_length,
    List.length_nil] at hcon
  revert hcon
  split
  · split <;> (rw [rotateLast_length]; omega)
  · omega

/-- The location list a call to `HexSearch.schedule` works with: the
cached one when set and non-empty, a freshly generated one otherwise
(this is the `if not self.locations: self.locations =
self._generate_locations()` step). -/
def scheduledLocations (gnc : Loc → ℚ → ℚ → Loc) (alt : Loc → ℚ)
    (xdist ydist : ℚ) (s : HexState) (origin : Loc) : List QItem :=
  if locationsFalsy s.locations then
    hexsearch_generate_locations gnc alt xdist ydist s.step_limit origin
  else
    s.locations.getD []

theorem hexsearch_schedule_some (gnc : Loc → ℚ → ℚ → Loc) (alt : Loc → ℚ)
    (xdist ydist : ℚ) (s : HexState) (origin : Loc)
    (hloc : s.scan_location = some origin) :
    hexsearch_schedule gnc alt xdist ydist s =
      { s with
        locations := some (scheduledLocations gnc alt xdist ydist s origin),
        queue := s.queue ++ scheduledLocations gnc alt xdist ydist s origin,
        size := some (scheduledLocations gnc alt xdist ydist s origin).length,
        ready := true } := by
  simp only [hexsearch_schedule, hloc, scheduledLocations]

theorem scheduledLocations_ne_nil (gnc : Loc → ℚ → ℚ → Loc) (alt : Loc → ℚ)
    (xdist ydist : ℚ) (s : HexState) (origin : Loc) :
    scheduledLocations gnc alt xdist ydist s origin ≠ [] := by
  unfold scheduledLocations
  split
  · exact hexsearch_generate_locations_ne_nil gnc alt xdist ydist s.step_limit origin
  · rename_i hfal
    rcases hl : s.locations with _ | ⟨_ | ⟨x, xs⟩⟩ <;>
      rw [hl] at hfal <;> simp [locationsFalsy] at hfal ⊢

/-- Claim C7, counterexample.  `HexSearch.schedule()` never drains the
queue: each call appends the cached location list again, so two calls
leave twice the items of one call.  Concretely, with `step_limit = 1`
one call leaves a 1-item queue, two calls a 2-item queue — not the same
queue. -/
theorem claim_C7_counterexample :
    (hexsearch_schedule (fun l _ _ => l) (fun _ => 0) 0 0
        (hexsearch_schedule (fun l _ _ => l) (fun _ => 0) 0 0
          ⟨some (0, 0), Option.none, [], Option.none, false, 1⟩)).queue ≠
      (hexsearch_schedule (fun l _ _ => l) (fun _ => 0) 0 0
        ⟨some (0, 0), Option.none, [], Option.none, false, 1⟩).queue := by
  decide

/-- Claim C7, amended.  With a scan location set, the first
`HexSearch.schedule()` fixes a non-empty location list `l` and appends
it to the queue; the second call reuses the same `l` (locations,
`size` and `ready` agree after one or two calls) but appends it again:
two calls leave the queue holding the items of a single call twice
rather than leaving it unchanged. -/
theorem claim_C7_amended (gnc : Loc → ℚ → ℚ → Loc) (alt : Loc → ℚ)
    (xdist ydist : ℚ) (s : HexState) (origin : Loc)
    (hloc : s.scan_location = some origin) :
    ∃ l, l ≠ [] ∧
      (hexsearch_schedule gnc alt xdist ydist s).locations = some l ∧
      (hexsearch_schedule gnc alt xdist ydist s).queue = s.queue ++ l ∧
      (hexsearch_schedule gnc alt xdist ydist
          (hexsearch_schedule gnc alt xdist ydist s)).locations = some l ∧
      (hexsearch_schedule gnc alt xdist ydist
          (hexsearch_schedule gnc alt xdist ydist s)).queue = s.queue ++ l ++ l := by
  refine ⟨scheduledLocations gnc alt xdist ydist s origin,
    scheduledLocations_ne_nil gnc alt xdist ydist s origin, ?_⟩
  have h1 := hexsearch_schedule_some gnc alt xdist ydist s origin hloc
  have hne := scheduledLocations_ne_nil gnc alt xdist ydist s origin
  have h2 : scheduledLocations gnc alt xdist ydist
      (hexsearch_schedule gnc alt xdist ydist s) origin =
        scheduledLocations gnc alt xdist ydist s origin := by
    rcases hl : scheduledLocations gnc alt xdist ydist s origin with _ | ⟨x, xs⟩
    · exact absurd hl hne
    · rw [h1, hl]
      unfold scheduledLocations
      simp [locationsFalsy]
  have h3 := hexsearch_schedule_some gnc alt xdist ydist
    (hexsearch_schedule gnc alt xdist ydist s) origin (by rw [h1]; exact hloc)
  rw [h3, h2, h1]
  exact ⟨rfl, rfl, rfl, rfl⟩

theorem claim_C7_amended_witness :
    (⟨some (0, 0), Option.none, [], Option.none, false, 2⟩ : HexState).scan_location
      = some (0, 0) ∧
    ∃ l, l ≠ [] ∧
      (hexsearch_schedule (fun l2 _ _ => l2) (fun _ => 0) 0 0
        ⟨some (0, 0), Option.none, [], Option.none, false, 2⟩).locations = some l ∧
      (hexsearch_schedule (fun l2 _ _ => l2) (fun _ => 0) 0 0
        ⟨some (0, 0), Option.none, [], Option.none, false, 2⟩).queue =
          (⟨some (0, 0), Option.none, [], Option.none, false, 2⟩ : HexState).queue ++ l ∧
      (hexsearch_schedule (fun l2 _ _ => l2) (fun _ => 0) 0 0
          (hexsearch_schedule (fun l2 _ _ => l2) (fun _ => 0) 0 0
            ⟨some (0, 0), Option.none, [], Option.none, false, 2⟩)).locations = some l ∧
      (hexsearch_schedule (fun l2 _ _ => l2) (fun _ => 0) 0 0
          (hexsearch_schedule (fun l2 _ _ => l2) (fun _ => 0) 0 0
            ⟨some (0, 0), Option.none, [], Option.none, false, 2⟩)).queue =
          (⟨some (0, 0), Option.none, [], Option.none, false, 2⟩ : HexState).queue
            ++ l ++ l :=
  ⟨rfl, claim_C7_amended (fun l2 _ _ => l2) (fun _ => 0) 0 0
    ⟨some (0, 0), Option.none, [], Option.none, false, 2⟩ (0, 0) rfl⟩

/-! ### Claim C4: SpawnScan appearance times -/

/-- Claim C4.  `SpawnScan._generate_locations` converts each spawn's
second-within-the-hour `t` to `appears = now + (t − cur_sec)` when
`t > cur_sec` and `appears = now + 3600 − (cur_sec − t)` otherwise,
sets `leaves = appears + 900`, and emits the items in ascending order
of `appears`; in particular `t = 120` at 30 seconds past the hour
yields the single item `(1, (lat, lng, ·), now + 90, now + 990)`. -/
theorem claim_C4 (alt : Loc → ℚ) (nw cs : ℤ) (locs : List SpawnLoc) :
    (∀ t : ℤ, t > cs → spawn_appears nw cs t = nw + (t - cs)) ∧
    (∀ t : ℤ, ¬ t > cs → spawn_appears nw cs t = nw + 3600 - (cs - t)) ∧
    (∀ it ∈ spawnscan_generate_locations alt nw cs locs, ∃ l ∈ locs,
      it.2.1 = (l.lat, l.lng, alt (l.lat, l.lng)) ∧
      it.2.2.1 = spawn_appears nw cs l.time ∧
      it.2.2.2 = it.2.2.1 + 900) ∧
    (spawnscan_generate_locations alt nw cs locs).Pairwise
      (fun x y => x.2.2.1 ≤ y.2.2.1) ∧
    (∀ a b : ℚ, spawnscan_generate_locations alt nw 30 [⟨a, b, 120⟩] =
      [(1, (a, b, alt (a, b)), nw + 90, nw + 990)]) := by
  refine ⟨fun t ht => by simp [spawn_appears, ht], fun t ht => by simp [spawn_appears, ht],
    ?_, ?_, ?_⟩
  · intro it hit
    simp only [spawnscan_generate_locations, List.mem_map] at hit
    obtain ⟨p, hp, rfl⟩ := hit
    have hmem := snd_mem_of_mem_enumerateFrom hp
    rw [List.mem_mergeSort, List.mem_map] at hmem
    obtain ⟨l, hl, hpl⟩ := hmem
    exact ⟨l, hl, by rw [← hpl], by rw [← hpl], by rw [← hpl]⟩
  · have hsorted : ((locs.map (fun l => (l, spawn_appears nw cs l.time,
        spawn_appears nw cs l.time + 900))).mergeSort
          (fun a b => decide (a.2.1 ≤ b.2.1))).Pairwise
        (fun x y => x.2.1 ≤ y.2.1) := by
      have h := @List.sorted_mergeSort (SpawnLoc × ℤ × ℤ)
        (fun a b => decide (a.2.1 ≤ b.2.1))
        (fun a b c hab hbc => by
          simp only [decide_eq_true_eq] at hab hbc ⊢
          exact le_trans hab hbc)
        (fun a b => by
          rcases le_total a.2.1 b.2.1 with h | h <;> simp [h])
        (locs.map (fun l => (l, spawn_appears nw cs l.time,
          spawn_appears nw cs l.time + 900)))
      exact h.imp (by intro a b hab; simpa using hab)
    have henum := enumerateFrom_pairwise 1 hsorted
    simp only [spawnscan_generate_locations]
    exact List.Pairwise.map _ (fun p q h => h) henum
  · intro a b
    simp [spawnscan_generate_locations, enumerateFrom, spawn_appears]
    omega

theorem claim_C4_witness :
    ((120 : ℤ) > 17 ∧ spawn_appears 5000 17 120 = 5000 + (120 - 17)) ∧
    (¬ (10 : ℤ) > 17 ∧ spawn_appears 5000 17 10 = 5000 + 3600 - (17 - 10)) ∧
    (∀ it ∈ spawnscan_generate_locations (fun _ => 0) 5000 17 [⟨1, 2, 120⟩],
      ∃ l ∈ [(⟨1, 2, 120⟩ : SpawnLoc)],
        it.2.1 = (l.lat, l.lng, (fun (_ : Loc) => (0 : ℚ)) (l.lat, l.lng)) ∧
        it.2.2.1 = spawn_appears 5000 17 l.time ∧
        it.2.2.2 = it.2.2.1 + 900) ∧
    (spawnscan_generate_locations (fun _ => 0) 5000 17 [⟨1, 2, 120⟩]).Pairwise
      (fun x y => x.2.2.1 ≤ y.2.2.1) ∧
    (∀ a b : ℚ, spawnscan_generate_locations (fun _ => 0) 5000 30 [⟨a, b, 120⟩] =
      [(1, (a, b, 0), 5000 + 90, 5000 + 990)]) := by
  have h := claim_C4 (fun _ => 0) 5000 17 [⟨1, 2, 120⟩]
  have h30 := claim_C4 (fun _ => 0) 5000 30 [⟨1, 2, 120⟩]
  exact ⟨⟨by decide, h.1 120 (by decide)⟩, ⟨by decide, h.2.1 10 (by decide)⟩,
    h.2.2.1, h.2.2.2.1, h30.2.2.2.2⟩

/-! ### Claim C6: stale items are marked Missed; all-stale gives
"Nothing to scan" -/

theorem nextLoop_allStale (dist : Loc → Loc → ℚ) (ms now nbd kph : ℚ)
    (wloc : Loc) (q : List Item) (i0 : ℕ) (best : Best) (cr : Bool)
    (h : ∀ it ∈ q, ms > it.end_) :
    nextLoop dist ms now nbd kph wloc q i0 best cr =
      (q.map (fun it => if isDone it.done then it else { it with done := .missed }),
        best, cr) := by
  induction q generalizing i0 with
  | nil => rfl
  | cons item rest ih =>
    have hitem : ms > item.end_ := h item (List.mem_cons_self _ _)
    have hrest : ∀ it ∈ rest, ms > it.end_ :=
      fun it hit => h it (List.mem_cons_of_mem _ hit)
    by_cases hd : isDone item.done
    · simp [nextLoop, hd, ih (i0 + 1) hrest]
    · simp [nextLoop, hd, if_pos hitem, ih (i0 + 1) hrest]

/-- Claim C6.  When `SpeedScan.next_item` encounters a not-yet-done item
whose window has passed (`ms > item.end`), it marks it `done =
"Missed"` and skips it; when every item of a non-empty queue is stale,
the call touches no other state, claims nothing and returns the
sentinel with `wait = "Nothing to scan"`. -/
theorem claim_C6 (dist : Loc → Loc → ℚ) (s : SpeedState) (status : WStatus)
    (now : ℚ) (hne : s.queue ≠ [])
    (hstale : ∀ it ∈ s.queue, (now - s.refresh_date) + s.refresh_ms > it.end_) :
    (next_item dist s status now).result = .sentinel .nothingToScan ∧
    (next_item dist s status now).s.queue =
      s.queue.map (fun it => if isDone it.done then it
        else { it with done := .missed }) ∧
    (next_item dist s status now).statusIndex = Option.none ∧
    (next_item dist s status now).s.next_band_date = s.next_band_date := by
  have hloop := nextLoop_allStale dist ((now - s.refresh_date) + s.refresh_ms) now
    s.next_band_date s.kph (status.latitude, status.longitude) s.queue 0
    (Best.mk 0 0 Option.none) false hstale
  rcases hq : s.queue with _ | ⟨x, rest⟩
  · exact absurd hq hne
  · rw [hq] at hloop
    simp only [next_item, hloop, hq, List.map_cons]
    simp only [List.get?_cons_zero]
    by_cases hd : isDone x.done <;> simp [hd]

theorem claim_C6_witness :
    ((⟨[⟨0, (0, 0), 0, 60, .band, Option.none, .none⟩], true, 0, 0, 0, 10, 3600, 0,
        0, [], 0, []⟩ : SpeedState).queue ≠ [] ∧
      ∀ it ∈ (⟨[⟨0, (0, 0), 0, 60, .band, Option.none, .none⟩], true, 0, 0, 0, 10,
        3600, 0, 0, [], 0, []⟩ : SpeedState).queue,
        ((120 : ℚ) - 0) + 0 > it.end_) ∧
    ((next_item (fun _ _ => 0)
        ⟨[⟨0, (0, 0), 0, 60, .band, Option.none, .none⟩], true, 0, 0, 0, 10, 3600,
          0, 0, [], 0, []⟩ ⟨0, 0, 0, 0⟩ 120).result = .sentinel .nothingToScan ∧
      (next_item (fun _ _ => 0)
        ⟨[⟨0, (0, 0), 0, 60, .band, Option.none, .none⟩], true, 0, 0, 0, 10, 3600,
          0, 0, [], 0, []⟩ ⟨0, 0, 0, 0⟩ 120).s.queue =
        [⟨0, (0, 0), 0, 60, .band, Option.none, .none⟩].map
          (fun it => if isDone it.done then it
            else { it with done := .missed })) := by
  have hstale : ∀ it ∈ (⟨[⟨0, (0, 0), 0, 60, .band, Option.none, .none⟩], true, 0,
      0, 0, 10, 3600, 0, 0, [], 0, []⟩ : SpeedState).queue,
      ((120 : ℚ) - 0) + 0 > it.end_ := by
    intro it hit
    rw [List.mem_singleton] at hit
    subst hit
    norm_num
  have h := claim_C6 (fun _ _ => 0)
    ⟨[⟨0, (0, 0), 0, 60, .band, Option.none, .none⟩], true, 0, 0, 0, 10, 3600, 0, 0,
      [], 0, []⟩ ⟨0, 0, 0, 0⟩ 120 (by simp) hstale
  exact ⟨⟨by simp, hstale⟩, h.1, h.2.1⟩

/-! ### Claims C1 and C2: the next_item selection loop -/

/-- An item that the selection loop of `next_item` actually scores: not
done, not stale, not band-paced, ripe, and reachable before its window
closes. -/
def isCandidate (dist : Loc → Loc → ℚ) (ms now nbd kph : ℚ) (wloc : Loc)
    (it : Item) : Prop :=
  isDone it.done = false ∧ ¬ ms > it.end_ ∧ ¬ now < nbd ∧ ¬ ms < it.start ∧
  ¬ ms + dist it.loc wloc / kph * 3600 > it.end_

theorem get?_cons_shift {α : Type} {x b : α} {xs : List α} {j i0 : ℕ}
    (hij : i0 + 1 ≤ j) (hg : xs.get? (j - (i0 + 1)) = some b) :
    (x :: xs).get? (j - i0) = some b := by
  obtain ⟨k, hk⟩ : ∃ k, j - i0 = k + 1 := ⟨j - (i0 + 1), by omega⟩
  rw [hk, List.get?_cons_succ, show k = j - (i0 + 1) from by omega]
  exact hg

theorem nextLoop_cons_done {dist : Loc → Loc → ℚ} {ms now nbd kph : ℚ}
    {wloc : Loc} {item : Item} {rest : List Item} {i0 : ℕ} {best : Best}
    {cr : Bool} (h1 : isDone item.done = true) :
    nextLoop dist ms now nbd kph wloc (item :: rest) i0 best cr =
      (item :: (nextLoop dist ms now nbd kph wloc rest (i0 + 1) best cr).1,
        (nextLoop dist ms now nbd kph wloc rest (i0 + 1) best cr).2) := by
  simp [nextLoop, h1]

theorem nextLoop_cons_missed {dist : Loc → Loc → ℚ} {ms now nbd kph : ℚ}
    {wloc : Loc} {item : Item} {rest : List Item} {i0 : ℕ} {best : Best}
    {cr : Bool} (h1 : isDone item.done = false) (h2 : ms > item.end_) :
    nextLoop dist ms now nbd kph wloc (item :: rest) i0 best cr =
      ({ item with done := .missed } ::
          (nextLoop dist ms now nbd kph wloc rest (i0 + 1) best cr).1,
        (nextLoop dist ms now nbd kph wloc rest (i0 + 1) best cr).2) := by
  simp [nextLoop, h1, h2]

theorem nextLoop_cons_nbd {dist : Loc → Loc → ℚ} {ms now nbd kph : ℚ}
    {wloc : Loc} {item : Item} {rest : List Item} {i0 : ℕ} {best : Best}
    {cr : Bool} (h1 : isDone item.done = false) (h2 : ¬ ms > item.end_)
    (h3 : now < nbd) :
    nextLoop dist ms now nbd kph wloc (item :: rest) i0 best cr =
      (item :: (nextLoop dist ms now nbd kph wloc rest (i0 + 1) best cr).1,
        (nextLoop dist ms now nbd kph wloc rest (i0 + 1) best cr).2) := by
  simp [nextLoop, h1, h2, h3]

theorem nextLoop_cons_break {dist : Loc → Loc → ℚ} {ms now nbd kph : ℚ}
    {wloc : Loc} {item : Item} {rest : List Item} {i0 : ℕ} {best : Best}
    {cr : Bool} (h1 : isDone item.done = false) (h2 : ¬ ms > item.end_)
    (h3 : ¬ now < nbd) (h4 : ms < item.start) :
    nextLoop dist ms now nbd kph wloc (item :: rest) i0 best cr =
      (item :: rest, best, cr) := by
  simp [nextLoop, h1, h2, h3, h4]

theorem nextLoop_cons_cantreach {dist : Loc → Loc → ℚ} {ms now nbd kph : ℚ}
    {wloc : Loc} {item : Item} {rest : List Item} {i0 : ℕ} {best : Best}
    {cr : Bool} (h1 : isDone item.done = false) (h2 : ¬ ms > item.end_)
    (h3 : ¬ now < nbd) (h4 : ¬ ms < item.start)
    (h5 : ms + dist item.loc wloc / kph * 3600 > item.end_) :
    nextLoop dist ms now nbd kph wloc (item :: rest) i0 best cr =
      (item :: (nextLoop dist ms now nbd kph wloc rest (i0 + 1) best true).1,
        (nextLoop dist ms now nbd kph wloc rest (i0 + 1) best true).2) := by
  simp [nextLoop, h1, h2, h3, h4, h5]

theorem nextLoop_cons_score {dist : Loc → Loc → ℚ} {ms now nbd kph : ℚ}
    {wloc : Loc} {item : Item} {rest : List Item} {i0 : ℕ} {best : Best}
    {cr : Bool} (h1 : isDone item.done = false) (h2 : ¬ ms > item.end_)
    (h3 : ¬ now < nbd) (h4 : ¬ ms < item.start)
    (h5 : ¬ ms + dist item.loc wloc / kph * 3600 > item.end_) :
    nextLoop dist ms now nbd kph wloc (item :: rest) i0 best cr =
      (item :: (nextLoop dist ms now nbd kph wloc rest (i0 + 1)
          (if itemBase item.kind / (dist item.loc wloc + 1 / 100) > best.score then
            Best.mk (itemBase item.kind / (dist item.loc wloc + 1 / 100)) i0
              (some item)
          else best) cr).1,
        (nextLoop dist ms now nbd kph wloc rest (i0 + 1)
          (if itemBase item.kind / (dist item.loc wloc + 1 / 100) > best.score then
            Best.mk (itemBase item.kind / (dist item.loc wloc + 1 / 100)) i0
              (some item)
          else best) cr).2) := by
  simp [nextLoop, h1, h2, h3, h4, h5]

theorem nextLoop_spec (dist : Loc → Loc → ℚ) (ms now nbd kph : ℚ) (wloc : Loc) :
    ∀ (q : List Item) (i0 : ℕ) (best : Best) (cr : Bool),
      ((nextLoop dist ms now nbd kph wloc q i0 best cr).2.1.item = Option.none →
        (nextLoop dist ms now nbd kph wloc q i0 best cr).2.1 = best) ∧
      best.score ≤ (nextLoop dist ms now nbd kph wloc q i0 best cr).2.1.score ∧
      (∀ b, (nextLoop dist ms now nbd kph wloc q i0 best cr).2.1.item = some b →
        (nextLoop dist ms now nbd kph wloc q i0 best cr).2.1 = best ∨
          (isCandidate dist ms now nbd kph wloc b ∧
            (nextLoop dist ms now nbd kph wloc q i0 best cr).2.1.score =
              itemScore dist wloc b ∧
            i0 ≤ (nextLoop dist ms now nbd kph wloc q i0 best cr).2.1.i ∧
            (nextLoop dist ms now nbd kph wloc q i0 best cr).1.get?
              ((nextLoop dist ms now nbd kph wloc q i0 best cr).2.1.i - i0) =
                some b)) := by
  intro q
  induction q with
  | nil =>
    intro i0 best cr
    exact ⟨fun _ => rfl, le_refl _, fun b _ => Or.inl rfl⟩
  | cons item rest ih =>
    intro i0 best cr
    by_cases h1 : isDone item.done = true
    · rw [nextLoop_cons_done h1]
      obtain ⟨ih1, ih2, ih3⟩ := ih (i0 + 1) best cr
      refine ⟨ih1, ih2, fun b hb => ?_⟩
      rcases ih3 b hb with h | ⟨hc, hs, hi, hg⟩
      · exact Or.inl h
      · exact Or.inr ⟨hc, hs, le_trans (Nat.le_succ _) hi, get?_cons_shift hi hg⟩
    · rw [Bool.not_eq_true] at h1
      by_cases h2 : ms > item.end_
      · rw [nextLoop_cons_missed h1 h2]
        obtain ⟨ih1, ih2, ih3⟩ := ih (i0 + 1) best cr
        refine ⟨ih1, ih2, fun b hb => ?_⟩
        rcases ih3 b hb with h | ⟨hc, hs, hi, hg⟩
        · exact Or.inl h
        · exact Or.inr ⟨hc, hs, le_trans (Nat.le_succ _) hi, get?_cons_shift hi hg⟩
      · by_cases h3 : now < nbd
        · rw [nextLoop_cons_nbd h1 h2 h3]
          obtain ⟨ih1, ih2, ih3⟩ := ih (i0 + 1) best cr
          refine ⟨ih1, ih2, fun b hb => ?_⟩
          rcases ih3 b hb with h | ⟨hc, hs, hi, hg⟩
          · exact Or.inl h
          · exact Or.inr ⟨hc, hs, le_trans (Nat.le_succ _) hi, get?_cons_shift hi hg⟩
        · by_cases h4 : ms < item.start
          · rw [nextLoop_cons_break h1 h2 h3 h4]
            exact ⟨fun _ => rfl, le_refl _, fun b _ => Or.inl rfl⟩
          · by_cases h5 : ms + dist item.loc wloc / kph * 3600 > item.end_
            · rw [nextLoop_cons_cantreach h1 h2 h3 h4 h5]
              obtain ⟨ih1, ih2, ih3⟩ := ih (i0 + 1) best true
              refine ⟨ih1, ih2, fun b hb => ?_⟩
              rcases ih3 b hb with h | ⟨hc, hs, hi, hg⟩
              · exact Or.inl h
              · exact Or.inr ⟨hc, hs, le_trans (Nat.le_succ _) hi, get?_cons_shift hi hg⟩
            · rw [nextLoop_cons_score h1 h2 h3 h4 h5]
              by_cases h6 : itemBase item.kind / (dist item.loc wloc + 1 / 100) >
                  best.score
              · rw [if_pos h6]
                obtain ⟨ih1, ih2, ih3⟩ := ih (i0 + 1)
                  (Best.mk (itemBase item.kind / (dist item.loc wloc + 1 / 100)) i0
                    (some item)) cr
                refine ⟨fun hnone => ?_, le_trans (le_of_lt h6) ih2, fun b hb => ?_⟩
                · rw [ih1 hnone] at hnone
                  exact absurd hnone (by simp)
                · rcases ih3 b hb with h | ⟨hc, hs, hi, hg⟩
                  · rw [h] at hb ⊢
                    obtain rfl : item = b := by simpa using hb
                    refine Or.inr ⟨⟨h1, h2, h3, h4, h5⟩, rfl, le_refl _, ?_⟩
                    simp
                  · exact Or.inr ⟨hc, hs, le_trans (Nat.le_succ _) hi, get?_cons_shift hi hg⟩
              · rw [if_neg h6]
                obtain ⟨ih1, ih2, ih3⟩ := ih (i0 + 1) best cr
                refine ⟨ih1, ih2, fun b hb => ?_⟩
                rcases ih3 b hb with h | ⟨hc, hs, hi, hg⟩
                · exact Or.inl h
                · exact Or.inr ⟨hc, hs, le_trans (Nat.le_succ _) hi, get?_cons_shift hi hg⟩

theorem nextLoop_max (dist : Loc → Loc → ℚ) (ms now nbd kph : ℚ) (wloc : Loc) :
    ∀ (q : List Item) (i0 : ℕ) (best : Best) (cr : Bool),
      q.Pairwise (fun a b => a.start ≤ b.start) →
      ∀ it ∈ q, isCandidate dist ms now nbd kph wloc it →
        itemScore dist wloc it ≤
          (nextLoop dist ms now nbd kph wloc q i0 best cr).2.1.score := by
  intro q
  induction q with
  | nil =>
    intro i0 best cr _ it hit
    exact absurd hit (List.not_mem_nil it)
  | cons item rest ih =>
    intro i0 best cr hsort it hit hcand
    obtain ⟨hhead, htail⟩ := List.pairwise_cons.1 hsort
    rcases List.mem_cons.1 hit with rfl | hmem
    · obtain ⟨c1, c2, c3, c4, c5⟩ := hcand
      rw [nextLoop_cons_score c1 c2 c3 c4 c5]
      refine le_trans ?_
        (nextLoop_spec dist ms now nbd kph wloc rest (i0 + 1)
          (if itemBase it.kind / (dist it.loc wloc + 1 / 100) > best.score then
            Best.mk (itemBase it.kind / (dist it.loc wloc + 1 / 100)) i0 (some it)
          else best) cr).2.1
      by_cases h6 : itemBase it.kind / (dist it.loc wloc + 1 / 100) > best.score
      · rw [if_pos h6]
        exact le_refl _
      · rw [if_neg h6]
        exact not_lt.mp h6
    · by_cases h1 : isDone item.done = true
      · rw [nextLoop_cons_done h1]
        exact ih (i0 + 1) best cr htail it hmem hcand
      · rw [Bool.not_eq_true] at h1
        by_cases h2 : ms > item.end_
        · rw [nextLoop_cons_missed h1 h2]
          exact ih (i0 + 1) best cr htail it hmem hcand
        · by_cases h3 : now < nbd
          · rw [nextLoop_cons_nbd h1 h2 h3]
            exact ih (i0 + 1) best cr htail it hmem hcand
          · by_cases h4 : ms < item.start
            · rw [nextLoop_cons_break h1 h2 h3 h4]
              exact absurd (lt_of_lt_of_le h4 (hhead it hmem)) hcand.2.2.2.1
            · by_cases h5 : ms + dist item.loc wloc / kph * 3600 > item.end_
              · rw [nextLoop_cons_cantreach h1 h2 h3 h4 h5]
                exact ih (i0 + 1) best true htail it hmem hcand
              · rw [nextLoop_cons_score h1 h2 h3 h4 h5]
                exact ih (i0 + 1) _ cr htail it hmem hcand

theorem next_item_claimed_spec (dist : Loc → Loc → ℚ) (s : SpeedState)
    (status : WStatus) (now : ℚ) (i : ℕ)
    (h : (next_item dist s status now).statusIndex = some i) :
    ∃ b : Item,
      isCandidate dist ((now - s.refresh_date) + s.refresh_ms) now
        s.next_band_date s.kph (status.latitude, status.longitude) b ∧
      (next_item dist s status now).result = NIResult.claimed b.step b.loc ∧
      (next_item dist s status now).s.queue.get? i =
        some { b with done := Done.scanned } ∧
      (s.queue.Pairwise (fun a c => a.start ≤ c.start) →
        ∀ it ∈ s.queue,
          isCandidate dist ((now - s.refresh_date) + s.refresh_ms) now
            s.next_band_date s.kph (status.latitude, status.longitude) it →
          itemScore dist (status.latitude, status.longitude) it ≤
            itemScore dist (status.latitude, status.longitude) b) := by
  obtain ⟨sp1, sp2, sp3⟩ := nextLoop_spec dist ((now - s.refresh_date) + s.refresh_ms)
    now s.next_band_date s.kph (status.latitude, status.longitude) s.queue 0
    (Best.mk 0 0 Option.none) false
  have hmax := nextLoop_max dist ((now - s.refresh_date) + s.refresh_ms) now
    s.next_band_date s.kph (status.latitude, status.longitude) s.queue 0
    (Best.mk 0 0 Option.none) false
  simp only [next_item] at h ⊢
  rcases hget : (nextLoop dist ((now - s.refresh_date) + s.refresh_ms) now
      s.next_band_date s.kph (status.latitude, status.longitude) s.queue 0
      (Best.mk 0 0 Option.none) false).1.get?
        (nextLoop dist ((now - s.refresh_date) + s.refresh_ms) now
          s.next_band_date s.kph (status.latitude, status.longitude) s.queue 0
          (Best.mk 0 0 Option.none) false).2.1.i with _ | item
  · rw [hget] at h
    simp at h
  · rw [hget] at h
    simp only [Option.some.injEq] at h ⊢
    by_cases hsc : (nextLoop dist ((now - s.refresh_date) + s.refresh_ms) now
        s.next_band_date s.kph (status.latitude, status.longitude) s.queue 0
        (Best.mk 0 0 Option.none) false).2.1.score = 0
    · rw [if_pos hsc] at h
      split at h <;> simp at h
    · rw [if_neg hsc] at h ⊢
      rcases hitem : (nextLoop dist ((now - s.refresh_date) + s.refresh_ms) now
          s.next_band_date s.kph (status.latitude, status.longitude) s.queue 0
          (Best.mk 0 0 Option.none) false).2.1.item with _ | b
      · rw [hitem] at h
        simp at h
      · rw [hitem] at h
        simp only [Option.some.injEq] at h ⊢
        rcases sp3 b hitem with hinit | ⟨hcand, hscore, _, hg⟩
        · rw [hinit] at hitem
          simp at hitem
        · rw [Nat.sub_zero] at hg
          have hitemb : item = b := by
            rw [hget] at hg
            exact (Option.some.injEq _ _).mp hg
          subst hitemb
          by_cases hmov : dist item.loc (status.latitude, status.longitude) >
              (now - status.last_scan_date) * s.kph / 3600
          · rw [if_pos hmov] at h
            simp at h
          · rw [if_neg hmov] at h ⊢
            by_cases hdone : isDone item.done = true
            · rw [if_pos hdone] at h
              simp at h
            · rw [if_neg hdone] at h ⊢
              by_cases hready : s.ready = false
              · rw [if_pos hready] at h
                simp at h
              · rw [if_neg hready] at h ⊢
                simp only [Option.some.injEq] at h
                subst h
                refine ⟨item, hcand, rfl, ?_, ?_⟩
                · dsimp only
                  rw [List.get?_set_eq, hget]
                  rfl
                · intro hsort it hmem hc
                  have hle := hmax hsort it hmem hc
                  rw [hscore] at hle
                  exact hle

/-- Claim C1.  Whenever `SpeedScan.next_item` claims a queue item
(returning non-sentinel and recording `status['index_of_queue_item']`),
the claimed item satisfies `item.start ≤ ms ≤ item.end` for the virtual
clock `ms = (now − refresh_date) + refresh_ms` at the moment of
return. -/
theorem claim_C1 (dist : Loc → Loc → ℚ) (s : SpeedState) (status : WStatus)
    (now : ℚ) (i : ℕ)
    (h : (next_item dist s status now).statusIndex = some i) :
    ∃ b : Item, (next_item dist s status now).s.queue.get? i = some b ∧
      b.start ≤ (now - s.refresh_date) + s.refresh_ms ∧
      (now - s.refresh_date) + s.refresh_ms ≤ b.end_ := by
  obtain ⟨b, hcand, _, hq, _⟩ := next_item_claimed_spec dist s status now i h
  exact ⟨{ b with done := Done.scanned }, hq, not_lt.mp hcand.2.2.2.1,
    not_lt.mp hcand.2.1⟩

/-- The `equi_rect_distance` oracle of the C2 scenario: the band cell at
`(1,1)` is 500 m (0.5 km) from the worker, everything else 10 m
(0.01 km). -/
def speedDist : Loc → Loc → ℚ :=
  fun l _ => if l = ((1 : ℚ), (1 : ℚ)) then 1 / 2 else 1 / 100

/-- A ripe spawn item 10 m from the worker. -/
def spawnNearItem : Item := ⟨2, (2, 2), 0, 1000, .spawn, some 7, .none⟩

/-- A ripe band item 500 m from the worker. -/
def bandFarItem : Item := ⟨1, (1, 1), 0, 1000, .band, Option.none, .none⟩

/-- SpeedScan state holding the spawn item (first) and the band item
(second), refresh epoch at 0 with `refresh_ms = 0`, `kph = 3600`. -/
def scoreState : SpeedState :=
  ⟨[spawnNearItem, bandFarItem], true, 0, 0, 0, 10, 3600, 0, 0, [], 0, []⟩

/-- A worker at the origin that last scanned at time 0. -/
def scoreStatus : WStatus := ⟨0, 0, 0, 0⟩

theorem next_item_score_eval :
    next_item speedDist scoreState scoreStatus 100 =
      NIOut.mk
        { scoreState with
          queue := [spawnNearItem, { bandFarItem with done := Done.scanned }],
          next_band_date := 110 }
        (some 1) (NIResult.claimed 1 (1, 1)) := by
  norm_num [next_item, nextLoop, scoreState, scoreStatus, speedDist, spawnNearItem,
    bandFarItem, isDone, itemBase]

/-- Claim C2.  Every candidate (ripe, reachable, unclaimed) item is scored
`base / (distance + 0.01)` with `base = 1e12` for a band, `1e6` for a
TTH item and `1` for a spawn, and the item `next_item` claims has
maximal score among all candidates; in particular, with one ripe band
500 m away and one ripe spawn 10 m away the band item is claimed. -/
theorem claim_C2 (dist : Loc → Loc → ℚ) (s : SpeedState) (status : WStatus)
    (now : ℚ) (i : ℕ)
    (hsort : s.queue.Pairwise (fun a c => a.start ≤ c.start))
    (h : (next_item dist s status now).statusIndex = some i) :
    (∃ b : Item,
      (next_item dist s status now).result = NIResult.claimed b.step b.loc ∧
      isCandidate dist ((now - s.refresh_date) + s.refresh_ms) now
        s.next_band_date s.kph (status.latitude, status.longitude) b ∧
      itemScore dist (status.latitude, status.longitude) b =
        itemBase b.kind / (dist b.loc (status.latitude, status.longitude) + 1 / 100) ∧
      (∀ it ∈ s.queue,
        isCandidate dist ((now - s.refresh_date) + s.refresh_ms) now
          s.next_band_date s.kph (status.latitude, status.longitude) it →
        itemScore dist (status.latitude, status.longitude) it ≤
          itemScore dist (status.latitude, status.longitude) b)) ∧
    (itemBase Kind.band = 10 ^ 12 ∧ itemBase Kind.tth = 10 ^ 6 ∧
      itemBase Kind.spawn = 1) ∧
    (next_item speedDist scoreState scoreStatus 100).result =
      NIResult.claimed bandFarItem.step (1, 1) := by
  obtain ⟨b, hcand, hres, _, hmax⟩ := next_item_claimed_spec dist s status now i h
  refine ⟨⟨b, hres, hcand, rfl, hmax hsort⟩, ⟨rfl, rfl, rfl⟩, ?_⟩
  rw [next_item_score_eval]
  rfl

theorem claim_C1_witness :
    (next_item speedDist scoreState scoreStatus 100).statusIndex = some 1 ∧
    ∃ b : Item,
      (next_item speedDist scoreState scoreStatus 100).s.queue.get? 1 = some b ∧
      b.start ≤ (100 - scoreState.refresh_date) + scoreState.refresh_ms ∧
      (100 - scoreState.refresh_date) + scoreState.refresh_ms ≤ b.end_ :=
  ⟨by rw [next_item_score_eval],
    claim_C1 speedDist scoreState scoreStatus 100 1 (by rw [next_item_score_eval])⟩

theorem claim_C2_witness :
    scoreState.queue.Pairwise (fun a c => a.start ≤ c.start) ∧
    (next_item speedDist scoreState scoreStatus 100).statusIndex = some 1 ∧
    ∃ b : Item,
      (next_item speedDist scoreState scoreStatus 100).result =
        NIResult.claimed b.step b.loc := by
  have hsort : scoreState.queue.Pairwise (fun a c => a.start ≤ c.start) := by
    norm_num [scoreState, List.pairwise_cons, spawnNearItem, bandFarItem]
  have h : (next_item speedDist scoreState scoreStatus 100).statusIndex = some 1 :=
    by rw [next_item_score_eval]
  obtain ⟨⟨b, hres, _⟩, _⟩ := claim_C2 speedDist scoreState scoreStatus 100 1 hsort h
  exact ⟨hsort, h, b, hres⟩

/-! ### Claim C3 (corrected): bad_scan requeueing -/

theorem markOthers_nil (now_secs : ℚ) (q : List Item) :
    markOthers [] now_secs q = q := rfl

/-- A queue item already claimed (`done = 'Scanned'`) whose window ended
at 60. -/
def lateAckItem : Item := ⟨0, (0, 0), 0, 60, .band, Option.none, .scanned⟩

/-- SpeedScan state holding just `lateAckItem`, refresh epoch 0. -/
def lateAckState : SpeedState :=
  ⟨[lateAckItem], true, 0, 0, 0, 10, 3600, 0, 0, [], 0, []⟩

/-- Claim C3, counterexample.  A `bad_scan` acknowledgement arriving after
`item.end` (here at `seconds_within_band = 100 > 60 = item.end`, so
`safety_buffer < 0`) does *not* requeue the item: `task_done` only logs
the lateness warning, leaving `done = 'Scanned'` and
`scans_missed_list` empty, contrary to the claim's "regardless of how
late it arrives". -/
theorem claim_C3_counterexample :
    task_done (fun _ => 0) lateAckState scoreStatus (some ⟨[], true⟩) 100 0 =
      some lateAckState ∧
    lateAckState.queue.get? 0 = some lateAckItem ∧
    lateAckItem.done = Done.scanned ∧
    lateAckState.scans_missed_list = [] := by
  refine ⟨?_, rfl, rfl, rfl⟩
  norm_num [task_done, lateAckState, lateAckItem, scoreStatus, pytrunc,
    markOthers, markOwnedSpawn]

/-- Claim C3, amended.  For a claimed queue item, a `bad_scan`
acknowledgement (with no observed spawn ids) requeues the item — clears
`done` (making it claimable again, since a cleared `done` is falsy) and
appends `cellid(item.loc)` to `scans_missed_list` — *provided* it
arrives no later than `item.end` (`safety_buffer ≥ 0`); an
acknowledgement arriving after `item.end` leaves the state unchanged
apart from a logged warning. -/
theorem claim_C3_amended (cellid : Loc → ℕ) (s : SpeedState) (status : WStatus)
    (now now_secs : ℚ) (item : Item)
    (hq : s.queue.get? status.index_of_queue_item = some item) :
    (item.end_ - ((pytrunc (now - s.refresh_date) : ℚ) + s.refresh_ms) ≥ 0 →
      task_done cellid s status (some ⟨[], true⟩) now now_secs =
        some { s with
          queue := s.queue.set status.index_of_queue_item
            { item with done := Done.none },
          scans_missed_list := s.scans_missed_list ++ [cellid item.loc] } ∧
      isDone Done.none = false) ∧
    (item.end_ - ((pytrunc (now - s.refresh_date) : ℚ) + s.refresh_ms) < 0 →
      task_done cellid s status (some ⟨[], true⟩) now now_secs = some s) := by
  constructor
  · intro hge
    refine ⟨?_, rfl⟩
    simp only [task_done, hq]
    rw [if_neg (not_lt.mpr hge)]
    simp [markOthers_nil]
  · intro hlt
    simp only [task_done, hq]
    rw [if_pos hlt]
    simp [markOthers_nil]

theorem claim_C3_amended_witness :
    lateAckState.queue.get? scoreStatus.index_of_queue_item = some lateAckItem ∧
    ((lateAckItem.end_ - ((pytrunc ((10 : ℚ) - lateAckState.refresh_date) : ℚ) +
        lateAckState.refresh_ms) ≥ 0 →
      task_done (fun _ => 5) lateAckState scoreStatus (some ⟨[], true⟩) 10 0 =
        some { lateAckState with
          queue := lateAckState.queue.set scoreStatus.index_of_queue_item
            { lateAckItem with done := Done.none },
          scans_missed_list := lateAckState.scans_missed_list ++
            [(fun (_ : Loc) => 5) lateAckItem.loc] } ∧
      isDone Done.none = false) ∧
    (lateAckItem.end_ - ((pytrunc ((10 : ℚ) - lateAckState.refresh_date) : ℚ) +
        lateAckState.refresh_ms) < 0 →
      task_done (fun _ => 5) lateAckState scoreStatus (some ⟨[], true⟩) 10 0 =
        some lateAckState)) :=
  ⟨rfl, claim_C3_amended (fun _ => 5) lateAckState scoreStatus 10 0 lateAckItem rfl⟩
